import Mathlib

/-!
Verification of the core of `tnikFi/json-file-transform`
(`src/tokenReplacement.js`): the dotted-key tokenizer, the delimited-list
parser, the value coercer and the recursive in-place tree replacer.

Modelling conventions:
* JavaScript values are modelled by the inductive `JS`; in-place mutation is
  modelled by returning the tree after the call alongside the boolean result.
* A thrown exception (`TypeError`) is modelled by a distinguished result
  constructor; control flow that cannot throw returns an ordinary result.
* Property access follows JavaScript semantics: own data properties first
  (object fields, array indices, the `length` of arrays and strings,
  character positions of strings), then the prototype chain.  The inherited
  members visible through the chain are the function-valued methods of the
  standard prototypes (`Object.prototype`, `String.prototype`,
  `Number.prototype`, `Boolean.prototype`, with the ES2021-era method sets
  listed below); engines that add further methods only extend the set of key
  strings showing the same behaviour.  The `__proto__` accessor (an accessor
  property, not a data property) is not modelled: a path segment named
  `__proto__` followed by further segments makes the program recurse into
  the global prototype objects themselves, mutating global state but never
  the tree; the model reports such paths as unmatched.  On an array
  receiver an inherited method name passes the definedness guard but the
  numeric-index test fails and so does the final non-array guard, so the
  outcome is `false` either way and arrays need no inherited lookup.
* JavaScript numbers are modelled exactly as sign-mantissa-exponent decimals
  (`m * 10 ^ e`), plus `NaN` and the two infinities.  IEEE-754 rounding is
  not modelled; it only affects literals that need more than double
  precision, which none of the properties below depend on.
* The code runs in sloppy mode: assignment to a non-writable property of a
  boxed primitive string is a silent no-op, which the model reproduces.
-/

namespace JsonFileTransform

/-! ## Character and string utilities -/

/-- JavaScript whitespace, as trimmed by `String.prototype.trim` and by the
`Number` string conversion (the common ASCII cases plus NBSP and BOM). -/
def isJsWs (c : Char) : Bool :=
  c == ' ' || c == '\t' || c == '\n' || c == '\r' ||
  c == '\x0b' || c == '\x0c' || c == '\u00A0' || c == '\uFEFF'

/-- Characters matched by the regex metacharacter dot: anything that is not a
line terminator. -/
def isRegexAny (c : Char) : Bool :=
  !(c == '\n' || c == '\r' || c == '\u2028' || c == '\u2029')

/-- Drop JavaScript whitespace from both ends of a character list. -/
def trimChars (cs : List Char) : List Char :=
  ((cs.dropWhile isJsWs).reverse.dropWhile isJsWs).reverse

/-- `String.prototype.trim`. -/
def jsTrim (s : String) : String := ⟨trimChars s.data⟩

/-- Decimal digit character of a value below ten. -/
def digitChar (d : Nat) : Char := Char.ofNat (48 + d)

/-- Digit characters of a natural number, most significant first; the fuel is
an upper bound on the number of digits (the number itself suffices). -/
def natDigitsAux : Nat → Nat → List Char
  | 0, _ => []
  | fuel + 1, n =>
    if n = 0 then [] else natDigitsAux fuel (n / 10) ++ [digitChar (n % 10)]

/-- Decimal digit characters of a natural number (`"0"` for zero). -/
def natDigits (n : Nat) : List Char :=
  if n = 0 then ['0'] else natDigitsAux n n

/-- Longest leading run of decimal digits, and the rest. -/
def readDigits : List Char → List Char × List Char
  | [] => ([], [])
  | c :: rest =>
    if c.isDigit then
      let (ds, r) := readDigits rest
      (c :: ds, r)
    else ([], c :: rest)

/-- Numeric value of a list of decimal digit characters. -/
def natOfDigits (ds : List Char) : Nat :=
  ds.foldl (fun acc c => 10 * acc + (c.toNat - 48)) 0

/-- Value of a hexadecimal digit character, if it is one. -/
def hexVal (c : Char) : Option Nat :=
  if c.isDigit then some (c.toNat - 48)
  else if 'a' ≤ c ∧ c ≤ 'f' then some (c.toNat - 87)
  else if 'A' ≤ c ∧ c ≤ 'F' then some (c.toNat - 55)
  else none

/-! ## The two escape-aware splitters

Both `splitKey` (`key.match(/(\\.|[^.])+/g) || []`) and `stringToArray`'s
splitter (`str.match(/(\\[,;\n]|[^,;\n])+/g) || []`) scan left to right,
grouping maximal runs of units into segments, where a unit is either a
backslash paired with a following character of the pair class or a single
character that is not a delimiter.  Zero-width segments never arise because a
match needs at least one unit, so consecutive or edge delimiters are skipped.
`pair` is the class of characters a backslash pairs with, `delim` the class of
delimiters; in both regexes the backslash itself is not a delimiter, so an
unpaired backslash is consumed as an ordinary character. -/

/-- Escape-aware splitter common to `splitKey` and `stringToArray`.
`acc` is the current segment, reversed. -/
def splitRunsAux (pair delim : Char → Bool) : List Char → List Char → List (List Char)
  | [], acc => if acc.isEmpty then [] else [acc.reverse]
  | '\\' :: c :: rest, acc =>
    if pair c then splitRunsAux pair delim rest (c :: '\\' :: acc)
    else splitRunsAux pair delim (c :: rest) ('\\' :: acc)
  | c :: rest, acc =>
    if delim c then
      if acc.isEmpty then splitRunsAux pair delim rest []
      else acc.reverse :: splitRunsAux pair delim rest []
    else splitRunsAux pair delim rest (c :: acc)

def splitRuns (pair delim : Char → Bool) (cs : List Char) : List (List Char) :=
  splitRunsAux pair delim cs []

/-- `splitKey`: split a key on unescaped dots; a backslash pairs with any
non-line-terminator character (regex `\\.`), and the dot delimits. -/
def splitKey (key : String) : List String :=
  (splitRuns isRegexAny (fun c => c == '.') key.data).map List.asString

/-- `getNextStepKey`: drop the first segment and rejoin the rest with dots. -/
def getNextStepKey (key : String) : String :=
  String.intercalate "." ((splitKey key).drop 1)

/-- The segment-level unescape `segment.replace(/\\./g, '.')`: each backslash
paired with a following non-line-terminator character is replaced by a dot. -/
def unescapeChars : List Char → List Char
  | [] => []
  | '\\' :: c :: rest =>
    if isRegexAny c then '.' :: unescapeChars rest
    else '\\' :: unescapeChars (c :: rest)
  | c :: rest => c :: unescapeChars rest

def unescapeSegment (s : String) : String := ⟨unescapeChars s.data⟩

/-- The effective first path segment:
`splitKey(key)[0]?.replace(/\\./g, '.') || ''`. -/
def currentKeyOf (key : String) : String :=
  match splitKey key with
  | [] => ""
  | s :: _ => unescapeSegment s

/-- The tokenizer as the replacer consumes it: every segment is unescaped at
the point where it is used to address a key. -/
def tokenizeKey (key : String) : List String :=
  (splitKey key).map unescapeSegment

/-! ## `stringToArray`: the delimited-list parser -/

def isListDelim (c : Char) : Bool := c == ',' || c == ';' || c == '\n'

/-- The pre-trim segments of `str.match(/(\\[,;\n]|[^,;\n])+/g) || []`. -/
def delimSegments (s : String) : List String :=
  (splitRuns isListDelim isListDelim s.data).map List.asString

/-- `stringToArray` on an actual string: split on unescaped `,`, `;` and
newline, then trim each item.  (The JavaScript function first returns `[]`
for a falsy argument; the falsy string is `""`, for which the match yields
no segments anyway.) -/
def stringToArray (s : String) : List String :=
  if s = "" then [] else (delimSegments s).map jsTrim

/-! ## JavaScript numbers

A number is `NaN`, an infinity, or a finite decimal `m * 10 ^ e`.  Finite
numbers are kept normalized (a mantissa not divisible by ten unless zero) so
that structural equality is value equality. -/

inductive JSNum where
  | nan : JSNum
  | inf (neg : Bool) : JSNum
  | dec (m : Int) (e : Int) : JSNum
deriving DecidableEq, Repr

/-- Strip factors of ten from a natural number, returning the reduced value
and the count of stripped zeros; the fuel bounds the count. -/
def stripZerosAux : Nat → Nat → Nat × Nat
  | 0, n => (n, 0)
  | fuel + 1, n =>
    if n ≠ 0 ∧ n % 10 = 0 then
      let (m, k) := stripZerosAux fuel (n / 10)
      (m, k + 1)
    else (n, 0)

def stripZeros (n : Nat) : Nat × Nat := stripZerosAux n n

/-- Normalizing constructor for finite numbers. -/
def mkDec (m e : Int) : JSNum :=
  if m = 0 then .dec 0 0
  else
    let (n, k) := stripZeros m.natAbs
    .dec (if m < 0 then -(n : Int) else (n : Int)) (e + k)

def JSNum.isNaN : JSNum → Bool
  | .nan => true
  | _ => false

/-- `Number.prototype.toString` (radix 10), ECMA-262 Number-to-string: plain
decimal notation while the position `n` of the decimal point relative to the
digits satisfies `-6 < n ≤ 21`, exponential notation otherwise. -/
def numToString : JSNum → String
  | .nan => "NaN"
  | .inf neg => if neg then "-Infinity" else "Infinity"
  | .dec m e =>
    if m = 0 then "0"
    else
      let ds := natDigits m.natAbs
      let k : Int := ds.length
      let n : Int := e + k
      let sign : List Char := if m < 0 then ['-'] else []
      let body : List Char :=
        if k ≤ n ∧ n ≤ 21 then
          ds ++ List.replicate (n - k).toNat '0'
        else if 0 < n ∧ n ≤ 21 then
          ds.take n.toNat ++ '.' :: ds.drop n.toNat
        else if -6 < n ∧ n ≤ 0 then
          '0' :: '.' :: List.replicate (-n).toNat '0' ++ ds
        else
          ds.take 1 ++ (if ds.length > 1 then '.' :: ds.drop 1 else []) ++
            'e' :: (if n - 1 < 0 then '-' :: natDigits (n - 1).natAbs
                    else '+' :: natDigits (n - 1).natAbs)
      List.asString (sign ++ body)

/-- Exponent part `e`/`E`, optional sign, at least one digit; requires the
whole remainder to be consumed.  Returns the exponent value. -/
def parseExpFull : List Char → Option Int
  | c :: rest =>
    if c == 'e' || c == 'E' then
      match rest with
      | '+' :: ds => if ds ≠ [] ∧ (readDigits ds).2 = [] then some (natOfDigits ds) else none
      | '-' :: ds => if ds ≠ [] ∧ (readDigits ds).2 = [] then some (-(natOfDigits ds : Int)) else none
      | ds => if ds ≠ [] ∧ (readDigits ds).2 = [] then some (natOfDigits ds) else none
    else none
  | [] => none

/-- An unsigned `StrDecimalLiteral` (digits, optional fraction, optional
exponent), consuming the entire input.  Yields mantissa and exponent. -/
def parseUnsignedDecFull (cs : List Char) : Option (Nat × Int) :=
  let (intD, r1) := readDigits cs
  match r1 with
  | [] => if intD = [] then none else some (natOfDigits intD, 0)
  | '.' :: r2 =>
    let (fracD, r3) := readDigits r2
    if intD = [] ∧ fracD = [] then none
    else
      match r3 with
      | [] => some (natOfDigits (intD ++ fracD), -(fracD.length : Int))
      | _ =>
        match parseExpFull r3 with
        | some ex => some (natOfDigits (intD ++ fracD), ex - fracD.length)
        | none => none
  | _ =>
    if intD = [] then none
    else
      match parseExpFull r1 with
      | some ex => some (natOfDigits intD, ex)
      | none => none

/-- Digits of a non-decimal integer literal in the given base, full
consumption, at least one digit. -/
def parseRadixFull (base : Nat) (isDig : Char → Bool) (val : Char → Nat)
    (cs : List Char) : Option Nat :=
  if cs ≠ [] ∧ cs.all isDig then
    some (cs.foldl (fun acc c => base * acc + val c) 0)
  else none

/-- The `Number(string)` conversion: trim whitespace, empty means zero, then
a signed decimal literal or `Infinity`, or an unsigned hex / octal / binary
literal; anything else is `NaN`. -/
def jsNumberOfString (s : String) : JSNum :=
  let cs := trimChars s.data
  match cs with
  | [] => .dec 0 0
  | '0' :: b :: rest =>
    if b == 'x' || b == 'X' then
      match parseRadixFull 16 (fun c => (hexVal c).isSome)
          (fun c => (hexVal c).getD 0) rest with
      | some n => mkDec n 0
      | none => .nan
    else if b == 'o' || b == 'O' then
      match parseRadixFull 8 (fun c => '0' ≤ c ∧ c ≤ '7')
          (fun c => c.toNat - 48) rest with
      | some n => mkDec n 0
      | none => .nan
    else if b == 'b' || b == 'B' then
      match parseRadixFull 2 (fun c => c == '0' || c == '1')
          (fun c => c.toNat - 48) rest with
      | some n => mkDec n 0
      | none => .nan
    else jsNumberSigned cs
  | _ => jsNumberSigned cs
where
  jsNumberUnsigned (cs : List Char) (neg : Bool) : JSNum :=
    if cs = "Infinity".data then .inf neg
    else
      match parseUnsignedDecFull cs with
      | some (mant, ex) => mkDec (if neg then -(mant : Int) else (mant : Int)) ex
      | none => .nan
  jsNumberSigned (cs : List Char) : JSNum :=
    match cs with
    | '+' :: rest => jsNumberUnsigned rest false
    | '-' :: rest => jsNumberUnsigned rest true
    | rest => jsNumberUnsigned rest false

/-- `parseInt(string)` with no radix argument: skip leading whitespace, an
optional sign, a `0x`/`0X` prefix for hex, then the longest run of digits;
no digit at all gives `NaN`.  (Values are kept exact rather than rounded to
double precision.) -/
def parseIntJS (s : String) : JSNum :=
  let cs := (s.data).dropWhile isJsWs
  let (neg, cs) : Bool × List Char :=
    match cs with
    | '+' :: rest => (false, rest)
    | '-' :: rest => (true, rest)
    | rest => (false, rest)
  match cs with
  | '0' :: x :: rest =>
    if x == 'x' || x == 'X' then hexRun rest neg
    else decRun cs neg
  | _ => decRun cs neg
where
  decRun (cs : List Char) (neg : Bool) : JSNum :=
    let (ds, _) := readDigits cs
    if ds = [] then .nan
    else mkDec (if neg then -(natOfDigits ds : Int) else (natOfDigits ds : Int)) 0
  hexRun (cs : List Char) (neg : Bool) : JSNum :=
    let ds := cs.takeWhile (fun c => (hexVal c).isSome)
    if ds = [] then .nan
    else
      let n := ds.foldl (fun acc c => 16 * acc + (hexVal c).getD 0) 0
      mkDec (if neg then -(n : Int) else (n : Int)) 0

/-- `parseFloat(string)`: skip leading whitespace, then the longest prefix
that is a signed `StrDecimalLiteral` (including `Infinity`); no valid prefix
gives `NaN`. -/
def parseFloatJS (s : String) : JSNum :=
  let cs := (s.data).dropWhile isJsWs
  let (neg, cs) : Bool × List Char :=
    match cs with
    | '+' :: rest => (false, rest)
    | '-' :: rest => (true, rest)
    | rest => (false, rest)
  if cs.take 8 = "Infinity".data then .inf neg
  else
    let (intD, r1) := readDigits cs
    let (fracD, r2) : List Char × List Char :=
      match r1 with
      | '.' :: t => readDigits t
      | _ => ([], r1)
    if intD = [] ∧ fracD = [] then .nan
    else
      let ex : Int :=
        match r2 with
        | e :: t =>
          if e == 'e' || e == 'E' then
            match t with
            | '+' :: ds => if (readDigits ds).1 ≠ [] then (natOfDigits (readDigits ds).1 : Int) else 0
            | '-' :: ds => if (readDigits ds).1 ≠ [] then -(natOfDigits (readDigits ds).1 : Int) else 0
            | ds => if (readDigits ds).1 ≠ [] then (natOfDigits (readDigits ds).1 : Int) else 0
          else 0
        | [] => 0
      mkDec (if neg then -(natOfDigits (intD ++ fracD) : Int) else (natOfDigits (intD ++ fracD) : Int))
        (ex - fracD.length)

/-! ## JSON-compatible values -/

inductive JS where
  | null : JS
  | bool (b : Bool) : JS
  | num (n : JSNum) : JS
  | str (s : String) : JS
  | arr (elems : List JS) : JS
  | obj (fields : List (String × JS)) : JS

def JS.isArr : JS → Bool
  | .arr _ => true
  | _ => false

def JS.isStr : JS → Bool
  | .str _ => true
  | _ => false

/-- `typeof x === 'object' && x !== null`: objects and arrays. -/
def JS.isContainer : JS → Bool
  | .arr _ => true
  | .obj _ => true
  | _ => false

/-- Constructor tag, used to state that the replacer preserves the shape of
the node it is called on. -/
def JS.tag : JS → Nat
  | .null => 0
  | .bool _ => 1
  | .num _ => 2
  | .str _ => 3
  | .arr _ => 4
  | .obj _ => 5

/-- JavaScript truthiness (falsy values among the modelled ones: `null`,
`false`, `0`, `NaN` and the empty string). -/
def jsFalsy : JS → Bool
  | .null => true
  | .bool b => !b
  | .num n => n == .nan || n == .dec 0 0
  | .str s => s = ""
  | _ => false

/-- First binding of a key in an object's field list (JavaScript objects
cannot contain duplicate keys, so the list is morally unique-keyed). -/
def lookupField : List (String × JS) → String → Option JS
  | [], _ => none
  | (k', v) :: rest, k => if k' = k then some v else lookupField rest k

/-- `o[k] = v` on an object: overwrite the first binding, appending when the
key is absent (the replacer only assigns to keys it has already found). -/
def setField : List (String × JS) → String → JS → List (String × JS)
  | [], k, v => [(k, v)]
  | (k', v') :: rest, k, v =>
    if k' = k then (k', v) :: rest else (k', v') :: setField rest k v

/-- A canonical array-index string: decimal digits with no leading zero.
(Array indices are bounded by 2^32 - 2 in JavaScript; index strings large
enough to exceed that do not occur in the properties below.) -/
def arrIndex? (s : String) : Option Nat :=
  match s.data with
  | [] => none
  | c :: rest =>
    if (c :: rest).all Char.isDigit ∧ (c = '0' → rest = []) then
      some (natOfDigits (c :: rest))
    else none

/-- The function-valued own members of `Object.prototype`, inherited by
every object, array, string, number and boolean receiver. -/
def objectProtoNames : List String :=
  ["constructor", "hasOwnProperty", "isPrototypeOf", "propertyIsEnumerable",
   "toLocaleString", "toString", "valueOf",
   "__defineGetter__", "__defineSetter__", "__lookupGetter__",
   "__lookupSetter__"]

/-- The function-valued own members of `String.prototype` (ES2021 set). -/
def stringProtoNames : List String :=
  ["anchor", "at", "big", "blink", "bold", "charAt", "charCodeAt",
   "codePointAt", "concat", "constructor", "endsWith", "fixed", "fontcolor",
   "fontsize", "includes", "indexOf", "italics", "lastIndexOf", "link",
   "localeCompare", "match", "matchAll", "normalize", "padEnd", "padStart",
   "repeat", "replace", "replaceAll", "search", "slice", "small", "split",
   "startsWith", "strike", "sub", "substr", "substring", "sup",
   "toLocaleLowerCase", "toLocaleUpperCase", "toLowerCase", "toString",
   "toUpperCase", "trim", "trimEnd", "trimLeft", "trimRight", "trimStart",
   "valueOf"]

/-- The function-valued own members of `Number.prototype`. -/
def numberProtoNames : List String :=
  ["constructor", "toExponential", "toFixed", "toLocaleString", "toPrecision",
   "toString", "valueOf"]

/-- The function-valued own members of `Boolean.prototype`. -/
def booleanProtoNames : List String :=
  ["constructor", "toString", "valueOf"]

/-- Whether `str[k]` is defined for a primitive string receiver: its own
`length` property, one of its character positions, or a method inherited
from `String.prototype` or `Object.prototype`. -/
def strHasProp (s : String) (k : String) : Bool :=
  k = "length" ||
    (match arrIndex? k with
     | some i => i < s.length
     | none => false) ||
    decide (k ∈ stringProtoNames) || decide (k ∈ objectProtoNames)

mutual
/-- `String(value)`: the string conversion used by the type-preservation rule
(and by array joining, where `null` becomes the empty string). -/
def jsToString : JS → String
  | .null => "null"
  | .bool b => if b then "true" else "false"
  | .num n => numToString n
  | .str s => s
  | .arr xs => jsJoinArr xs
  | .obj _ => "[object Object]"

/-- `Array.prototype.toString = join(',')`; `null` elements join as `""`. -/
def jsJoinArr : List JS → String
  | [] => ""
  | [x] => jsJoinItem x
  | x :: rest => jsJoinItem x ++ "," ++ jsJoinArr rest

def jsJoinItem : JS → String
  | .null => ""
  | x => jsToString x
end

/-! ## The value coercer `parseValue` -/

/-- `parseValue`: empty string to `null`, the two boolean literals, then a
number exactly when `Number(value)` is not `NaN` and `parseInt` or
`parseFloat` round-trips through `toString` to the original text; otherwise
the string itself. -/
def parseValue (value : String) : JS :=
  if value = "" then .null
  else if value = "true" then .bool true
  else if value = "false" then .bool false
  else if ¬ (jsNumberOfString value).isNaN ∧
      (numToString (parseIntJS value) = value ∨
        numToString (parseFloatJS value) = value) then
    .num (jsNumberOfString value)
  else .str value

/-! ## The tree replacer -/

/-- Result of a replacer call: a thrown `TypeError`, or the boolean result
paired with the tree after the call (in-place mutation made explicit). -/
inductive RRes where
  | thrown : RRes
  | ret (replaced : Bool) (t : JS) : RRes

/-- Write the subtree returned by a recursive call back into the array slot
it was read from (in-place mutation of `obj[index]`). -/
def RRes.inArr (xs : List JS) (i : Nat) : RRes → RRes
  | .thrown => .thrown
  | .ret b c => .ret b (.arr (xs.set i c))

/-- Write the subtree returned by a recursive call back into the object field
it was read from (in-place mutation of `obj[currentKey]`). -/
def RRes.inObj (fields : List (String × JS)) (k : String) : RRes → RRes
  | .thrown => .thrown
  | .ret b c => .ret b (.obj (setField fields k c))

/-- `stringToArray(value)` applied to an arbitrary value, as the whole-array
branch does: a falsy argument returns `[]`, a string is split, and any other
value has no `.match` method, so the call throws (`none`). -/
def stringToArrayJS : JS → Option (List String)
  | v =>
    if jsFalsy v then some []
    else
      match v with
      | .str s => some (stringToArray s)
      | _ => none

theorem sizeOf_lt_of_getElem? {xs : List JS} {i : Nat} {x : JS}
    (h : xs.get? i = some x) : sizeOf x < 1 + sizeOf xs := by
  have hm : x ∈ xs := List.get?_mem h
  have := List.sizeOf_lt_of_mem hm
  omega

theorem sizeOf_lt_of_lookupField {fs : List (String × JS)} {k : String} {v : JS}
    (h : lookupField fs k = some v) : sizeOf v < 1 + sizeOf fs := by
  induction fs with
  | nil => simp [lookupField] at h
  | cons hd tl ih =>
    obtain ⟨k', v'⟩ := hd
    simp only [lookupField] at h
    by_cases hk : k' = k
    · simp only [hk, if_pos rfl] at h
      cases h
      simp
      omega
    · simp only [if_neg hk] at h
      have := ih h
      simp at this ⊢
      omega

/-- `replaceValue(obj, key, value)`, the recursive tree replacer.  Each
branch mirrors the source:
* an empty first segment fails (`if (!currentKey) return false`);
* `typeof obj[currentKey] === 'undefined'` fails — except that evaluating
  `obj[currentKey]` on a `null` receiver throws a `TypeError`;
* on a boolean or number receiver an inherited method name passes the
  definedness guard; the receiver is not an array and the function-typed
  target is not a container, so the final branch assigns onto the boxed
  primitive — a sloppy-mode no-op — and returns `true`; any other key is
  undefined and fails;
* on a primitive string the same happens for its own `length`, its
  character positions and its inherited methods, all non-writable, so the
  call returns `true` without any change;
* on an array, a numeric segment addresses the element (overwrite on the
  last segment, recurse otherwise); every other defined property (`length`
  or an inherited method) has `Number(currentKey)` equal to `NaN`, falls
  through, and fails the final non-array guard, exactly like an undefined
  one;
* on an object whose addressed field is an array and the segment is last,
  the whole array is replaced by `stringToArray(value)`;
* on an object whose addressed field is a container and the segment is not
  last, recurse;
* a non-container (or `null`) field is overwritten regardless of remaining
  segments, stringified first when the field held a string; a key that is
  absent from the object but names an `Object.prototype` method also
  reaches this branch (the inherited function is neither object nor
  string-typed) and the assignment CREATES a new own key;
* anything else fails. -/
def replaceValue (o : JS) (key : String) (v : JS) : RRes :=
  let currentKey := currentKeyOf key
  let nextKey := getNextStepKey key
  if currentKey = "" then .ret false o
  else
    match o with
    | .null => .thrown
    | .bool b =>
      if currentKey ∈ booleanProtoNames ∨ currentKey ∈ objectProtoNames then
        .ret true (.bool b)
      else .ret false (.bool b)
    | .num n =>
      if currentKey ∈ numberProtoNames ∨ currentKey ∈ objectProtoNames then
        .ret true (.num n)
      else .ret false (.num n)
    | .str s =>
      if strHasProp s currentKey then .ret true (.str s) else .ret false (.str s)
    | .arr xs =>
      match arrIndex? currentKey with
      | none => .ret false (.arr xs)
      | some i =>
        match h : xs.get? i with
        | none => .ret false (.arr xs)
        | some target =>
          if nextKey = "" then .ret true (.arr (xs.set i v))
          else RRes.inArr xs i (replaceValue target nextKey v)
    | .obj fields =>
      match h : lookupField fields currentKey with
      | none =>
        if currentKey ∈ objectProtoNames then
          .ret true (.obj (setField fields currentKey v))
        else .ret false (.obj fields)
      | some target =>
        if target.isArr ∧ nextKey = "" then
          match stringToArrayJS v with
          | none => .thrown
          | some items =>
            .ret true (.obj (setField fields currentKey (.arr (items.map JS.str))))
        else if target.isContainer ∧ nextKey ≠ "" then
          RRes.inObj fields currentKey (replaceValue target nextKey v)
        else if !target.isContainer then
          .ret true (.obj (setField fields currentKey
            (if target.isStr then .str (jsToString v) else v)))
        else .ret false (.obj fields)
termination_by sizeOf o
decreasing_by
all_goals simp_wf
· exact sizeOf_lt_of_getElem? h
· exact sizeOf_lt_of_lookupField h

/-- `replaceObjectValue`: coerce the raw string, then replace. -/
def replaceObjectValue (o : JS) (key value : String) : RRes :=
  replaceValue o key (parseValue value)

/-- Result of a batch application: the applied keys and the final tree, or a
propagated exception together with the tree at that point. -/
inductive BRes where
  | thrown (t : JS) : BRes
  | ok (keys : List String) (t : JS) : BRes

/-- `transformObject`: apply each replacement in order, collecting the keys
whose replacement returned `true`. -/
def transformObject (o : JS) : List (String × String) → BRes
  | [] => .ok [] o
  | (key, value) :: rest =>
    match replaceObjectValue o key value with
    | .thrown => .thrown o
    | .ret true t =>
      match transformObject t rest with
      | .ok keys t' => .ok (key :: keys) t'
      | .thrown t' => .thrown t'
    | .ret false t =>
      transformObject t rest

/-! ## Addressable locations

Used to state that the replacer only overwrites locations that already exist
in the tree: one step is an existing object field or an in-range array
index. -/

inductive Loc where
  | fld (k : String) : Loc
  | idx (i : Nat) : Loc

def getLoc : JS → Loc → Option JS
  | .obj fs, .fld k => lookupField fs k
  | .arr xs, .idx i => xs.get? i
  | _, _ => none

def setLoc : JS → Loc → JS → JS
  | .obj fs, .fld k, w => .obj (setField fs k w)
  | .arr xs, .idx i, w => .arr (xs.set i w)
  | o, _, _ => o

def getPath : JS → List Loc → Option JS
  | o, [] => some o
  | o, l :: p => (getLoc o l).bind (fun c => getPath c p)

def setPath : JS → List Loc → JS → JS
  | _, [], w => w
  | o, l :: p, w =>
    match getLoc o l with
    | some c => setLoc o l (setPath c p w)
    | none => o

/-! ## Branch equations for the replacer -/

theorem arrIndex?_ne_empty {s : String} {i : Nat} (h : arrIndex? s = some i) :
    s ≠ "" := by
  intro hs
  subst hs
  simp [arrIndex?] at h

theorem rv_emptyKey {o : JS} {key : String} {v : JS}
    (h : currentKeyOf key = "") : replaceValue o key v = .ret false o := by
  rw [replaceValue.eq_def]
  simp [h]

theorem rv_null {key : String} {v : JS} (h : currentKeyOf key ≠ "") :
    replaceValue .null key v = .thrown := by
  rw [replaceValue.eq_def]
  simp [h]

theorem rv_bool {key : String} {v : JS} {b : Bool} :
    replaceValue (.bool b) key v =
      if currentKeyOf key ∈ booleanProtoNames ∨ currentKeyOf key ∈ objectProtoNames
      then .ret true (.bool b) else .ret false (.bool b) := by
  rw [replaceValue.eq_def]
  by_cases h : currentKeyOf key = ""
  · simp [h]
    rw [if_neg (by decide)]
  · simp [h]

theorem rv_num {key : String} {v : JS} {n : JSNum} :
    replaceValue (.num n) key v =
      if currentKeyOf key ∈ numberProtoNames ∨ currentKeyOf key ∈ objectProtoNames
      then .ret true (.num n) else .ret false (.num n) := by
  rw [replaceValue.eq_def]
  by_cases h : currentKeyOf key = ""
  · simp [h]
    rw [if_neg (by decide)]
  · simp [h]

theorem rv_str {key : String} {v : JS} {s : String} :
    replaceValue (.str s) key v =
      if strHasProp s (currentKeyOf key) then .ret true (.str s)
      else .ret false (.str s) := by
  rw [replaceValue.eq_def]
  by_cases h : currentKeyOf key = ""
  · simp [h, strHasProp, arrIndex?]
    rw [if_neg (by decide)]
  · by_cases h2 : strHasProp s (currentKeyOf key) <;> simp [h, h2]

theorem rv_arr_noIndex {key : String} {v : JS} {xs : List JS}
    (h : arrIndex? (currentKeyOf key) = none) :
    replaceValue (.arr xs) key v = .ret false (.arr xs) := by
  rw [replaceValue.eq_def]
  by_cases he : currentKeyOf key = "" <;> simp [he, h]

theorem rv_arr_outOfRange {key : String} {v : JS} {xs : List JS} {i : Nat}
    (h : arrIndex? (currentKeyOf key) = some i) (hg : xs.get? i = none) :
    replaceValue (.arr xs) key v = .ret false (.arr xs) := by
  have he := arrIndex?_ne_empty h
  rw [replaceValue.eq_def]
  simp only [h, if_neg he]
  repeat (any_goals split)
  all_goals simp_all [List.getElem?_eq_none]

theorem rv_arr_last {key : String} {v : JS} {xs : List JS} {i : Nat} {target : JS}
    (h : arrIndex? (currentKeyOf key) = some i) (hg : xs.get? i = some target)
    (hn : getNextStepKey key = "") :
    replaceValue (.arr xs) key v = .ret true (.arr (xs.set i v)) := by
  have he := arrIndex?_ne_empty h
  rw [replaceValue.eq_def]
  simp only [h, if_neg he]
  repeat (any_goals split)
  all_goals simp_all

theorem rv_arr_step {key : String} {v : JS} {xs : List JS} {i : Nat} {target : JS}
    (h : arrIndex? (currentKeyOf key) = some i) (hg : xs.get? i = some target)
    (hn : getNextStepKey key ≠ "") :
    replaceValue (.arr xs) key v =
      RRes.inArr xs i (replaceValue target (getNextStepKey key) v) := by
  have he := arrIndex?_ne_empty h
  rw [replaceValue.eq_def]
  simp only [h, if_neg he]
  repeat (any_goals split)
  all_goals simp_all

theorem rv_obj_none {key : String} {v : JS} {fields : List (String × JS)}
    (he : currentKeyOf key ≠ "")
    (h : lookupField fields (currentKeyOf key) = none)
    (hp : currentKeyOf key ∉ objectProtoNames) :
    replaceValue (.obj fields) key v = .ret false (.obj fields) := by
  rw [replaceValue.eq_def]
  simp only [if_neg he]
  repeat (any_goals split)
  all_goals simp_all

theorem rv_obj_protoWrite {key : String} {v : JS} {fields : List (String × JS)}
    (he : currentKeyOf key ≠ "")
    (h : lookupField fields (currentKeyOf key) = none)
    (hp : currentKeyOf key ∈ objectProtoNames) :
    replaceValue (.obj fields) key v =
      .ret true (.obj (setField fields (currentKeyOf key) v)) := by
  rw [replaceValue.eq_def]
  simp only [if_neg he]
  repeat (any_goals split)
  all_goals simp_all

theorem rv_obj_arrLast_throw {key : String} {v : JS} {fields : List (String × JS)}
    {target : JS} (he : currentKeyOf key ≠ "")
    (h : lookupField fields (currentKeyOf key) = some target)
    (ha : target.isArr) (hn : getNextStepKey key = "")
    (hs : stringToArrayJS v = none) :
    replaceValue (.obj fields) key v = .thrown := by
  rw [replaceValue.eq_def]
  simp only [if_neg he]
  repeat (any_goals split)
  all_goals simp_all

theorem rv_obj_arrLast {key : String} {v : JS} {fields : List (String × JS)}
    {target : JS} {items : List String} (he : currentKeyOf key ≠ "")
    (h : lookupField fields (currentKeyOf key) = some target)
    (ha : target.isArr) (hn : getNextStepKey key = "")
    (hs : stringToArrayJS v = some items) :
    replaceValue (.obj fields) key v =
      .ret true (.obj (setField fields (currentKeyOf key)
        (.arr (items.map JS.str)))) := by
  rw [replaceValue.eq_def]
  simp only [if_neg he]
  repeat (any_goals split)
  all_goals simp_all

theorem rv_obj_step {key : String} {v : JS} {fields : List (String × JS)}
    {target : JS} (he : currentKeyOf key ≠ "")
    (h : lookupField fields (currentKeyOf key) = some target)
    (hc : target.isContainer) (hn : getNextStepKey key ≠ "") :
    replaceValue (.obj fields) key v =
      RRes.inObj fields (currentKeyOf key)
        (replaceValue target (getNextStepKey key) v) := by
  rw [replaceValue.eq_def]
  simp only [if_neg he]
  repeat (any_goals split)
  all_goals simp_all

theorem rv_obj_write {key : String} {v : JS} {fields : List (String × JS)}
    {target : JS} (he : currentKeyOf key ≠ "")
    (h : lookupField fields (currentKeyOf key) = some target)
    (hc : ¬ target.isContainer) :
    replaceValue (.obj fields) key v =
      .ret true (.obj (setField fields (currentKeyOf key)
        (if target.isStr then .str (jsToString v) else v))) := by
  have ha : ¬ target.isArr := by
    cases target <;> simp_all [JS.isArr, JS.isContainer]
  rw [replaceValue.eq_def]
  simp only [if_neg he]
  repeat (any_goals split)
  all_goals simp_all

theorem rv_obj_objLast {key : String} {v : JS} {fields : List (String × JS)}
    {target : JS} (he : currentKeyOf key ≠ "")
    (h : lookupField fields (currentKeyOf key) = some target)
    (hc : target.isContainer) (ha : ¬ target.isArr)
    (hn : getNextStepKey key = "") :
    replaceValue (.obj fields) key v = .ret false (.obj fields) := by
  rw [replaceValue.eq_def]
  simp only [if_neg he]
  repeat (any_goals split)
  all_goals simp_all

/-! ## Helper lemmas on fields, lists and results -/

theorem setField_of_lookup {fs : List (String × JS)} {k : String} {c : JS}
    (h : lookupField fs k = some c) : setField fs k c = fs := by
  induction fs with
  | nil => simp [lookupField] at h
  | cons hd tl ih =>
    obtain ⟨k', v'⟩ := hd
    simp only [lookupField] at h
    by_cases hk : k' = k
    · simp only [hk, if_pos rfl] at h
      cases h
      simp [setField, hk]
    · simp only [if_neg hk] at h
      simp [setField, hk, ih h]

theorem lookup_setField_self {fs : List (String × JS)} {k : String} {w : JS} :
    lookupField (setField fs k w) k = some w := by
  induction fs with
  | nil => simp [lookupField, setField]
  | cons hd tl ih =>
    obtain ⟨k', v'⟩ := hd
    by_cases hk : k' = k
    · simp [setField, lookupField, hk]
    · simp [setField, lookupField, hk, ih]

theorem setField_setField {fs : List (String × JS)} {k : String} {a b : JS} :
    setField (setField fs k a) k b = setField fs k b := by
  induction fs with
  | nil => simp [setField]
  | cons hd tl ih =>
    obtain ⟨k', v'⟩ := hd
    by_cases hk : k' = k
    · simp [setField, hk]
    · simp [setField, hk, ih]

theorem set_eq_of_get? {α : Type} {xs : List α} {i : Nat} {a : α}
    (h : xs.get? i = some a) : xs.set i a = xs := by
  rw [List.get?_eq_getElem?] at h
  induction xs generalizing i with
  | nil => simp at h
  | cons x tl ih =>
    cases i with
    | zero =>
      simp at h
      simp [h]
    | succ n =>
      simp at h
      simp [ih h]

theorem get?_set_self {α : Type} {xs : List α} {i : Nat} {a b : α}
    (h : xs.get? i = some a) : (xs.set i b).get? i = some b := by
  have hi : i < xs.length := by
    by_contra hc
    rw [List.get?_eq_none.mpr (by omega)] at h
    cases h
  simp [List.get?_eq_getElem?, List.getElem?_set_self, hi]

theorem inArr_eq_ret {xs : List JS} {i : Nat} {r : RRes} {b : Bool} {t' : JS} :
    RRes.inArr xs i r = .ret b t' ↔
      ∃ c, r = .ret b c ∧ t' = .arr (xs.set i c) := by
  cases r <;> simp [RRes.inArr] <;> aesop

theorem inObj_eq_ret {fs : List (String × JS)} {k : String} {r : RRes} {b : Bool}
    {t' : JS} :
    RRes.inObj fs k r = .ret b t' ↔
      ∃ c, r = .ret b c ∧ t' = .obj (setField fs k c) := by
  cases r <;> simp [RRes.inObj] <;> aesop

/-- The replacer returns a tree of the same top-level shape as its argument
(and in particular an object stays an object, an array an array). -/
theorem rv_ret_tag {o : JS} {key : String} {v : JS} {b : Bool} {t' : JS}
    (h : replaceValue o key v = .ret b t') : t'.tag = o.tag := by
  induction o, key, v using replaceValue.induct with
  | case1 o key v _ck hck =>
    rw [rv_emptyKey hck] at h
    cases h
    rfl
  | case2 key v _ck hck =>
    rw [rv_null hck] at h
    cases h
  | case3 key v _ck hck b' hbp =>
    rw [rv_bool, if_pos hbp] at h
    cases h
    rfl
  | case4 key v _ck hck b' hbp =>
    rw [rv_bool, if_neg hbp] at h
    cases h
    rfl
  | case5 key v _ck hck n hbp =>
    rw [rv_num, if_pos hbp] at h
    cases h
    rfl
  | case6 key v _ck hck n hbp =>
    rw [rv_num, if_neg hbp] at h
    cases h
    rfl
  | case7 key v _ck hck s hs =>
    rw [rv_str, if_pos hs] at h
    cases h
    rfl
  | case8 key v _ck hck s hs =>
    rw [rv_str, if_neg hs] at h
    cases h
    rfl
  | case9 key v _ck hck xs hi =>
    rw [rv_arr_noIndex hi] at h
    cases h
    rfl
  | case10 key v _ck hck xs i hi hg =>
    rw [rv_arr_outOfRange hi hg] at h
    cases h
    rfl
  | case11 key v _ck _nk hck xs i hi target hg hn =>
    rw [rv_arr_last hi hg hn] at h
    cases h
    rfl
  | case12 key v _ck _nk hck xs i hi target hg hn ih =>
    rw [rv_arr_step hi hg hn] at h
    rcases inArr_eq_ret.mp h with ⟨c, _, rfl⟩
    rfl
  | case13 key v _ck hck fields hl hp =>
    rw [rv_obj_protoWrite hck hl hp] at h
    cases h
    rfl
  | case14 key v _ck hck fields hl hp =>
    rw [rv_obj_none hck hl hp] at h
    cases h
    rfl
  | case15 key v _ck _nk hck fields target hl hcond hs =>
    rw [rv_obj_arrLast_throw hck hl hcond.1 hcond.2 hs] at h
    cases h
  | case16 key v _ck _nk hck fields target hl hcond items hs =>
    rw [rv_obj_arrLast hck hl hcond.1 hcond.2 hs] at h
    cases h
    rfl
  | case17 key v _ck _nk hck fields target hl hna hcond ih =>
    rw [rv_obj_step hck hl hcond.1 hcond.2] at h
    rcases inObj_eq_ret.mp h with ⟨c, _, rfl⟩
    rfl
  | case18 key v _ck _nk hck fields target hl hna hnb hsc =>
    rw [rv_obj_write hck hl (by simpa using hsc)] at h
    cases h
    rfl
  | case19 key v _ck _nk hck fields target hl hna hnb hsc =>
    have hc : target.isContainer := by simpa using hsc
    have hn : getNextStepKey key = "" := by
      by_contra hn
      exact hnb ⟨hc, hn⟩
    have ha : ¬ target.isArr := by
      intro ha
      exact hna ⟨ha, hn⟩
    rw [rv_obj_objLast hck hl hc ha hn] at h
    cases h
    rfl

/-- Whenever the replacer returns `false`, the tree is unchanged (the
all-or-nothing half of the mutation contract). -/
theorem rv_false_eq {o : JS} {key : String} {v : JS} {t' : JS}
    (h : replaceValue o key v = .ret false t') : t' = o := by
  induction o, key, v using replaceValue.induct generalizing t' with
  | case1 o key v _ck =>
    rename_i hck
    rw [rv_emptyKey hck] at h
    cases h
    rfl
  | case2 key v _ck =>
    rename_i hck
    rw [rv_null hck] at h
    cases h
  | case3 key v _ck hck b' =>
    rename_i hbp
    rw [rv_bool, if_pos hbp] at h
    cases h
  | case4 key v _ck hck b' =>
    rename_i hbp
    rw [rv_bool, if_neg hbp] at h
    cases h
    rfl
  | case5 key v _ck hck n =>
    rename_i hbp
    rw [rv_num, if_pos hbp] at h
    cases h
  | case6 key v _ck hck n =>
    rename_i hbp
    rw [rv_num, if_neg hbp] at h
    cases h
    rfl
  | case7 key v _ck hck s =>
    rename_i hs
    rw [rv_str, if_pos hs] at h
    cases h
  | case8 key v _ck hck s =>
    rename_i hs
    rw [rv_str, if_neg hs] at h
    cases h
    rfl
  | case9 key v _ck hck xs =>
    rename_i hi
    rw [rv_arr_noIndex hi] at h
    cases h
    rfl
  | case10 key v _ck hck xs i hi =>
    rename_i hg
    rw [rv_arr_outOfRange hi hg] at h
    cases h
    rfl
  | case11 key v _ck _nk hck xs i hi target hg =>
    rename_i hn
    rw [rv_arr_last hi hg hn] at h
    cases h
  | case12 key v _ck _nk hck xs i hi target hg hn =>
    rename_i ih
    rw [rv_arr_step hi hg hn] at h
    rcases inArr_eq_ret.mp h with ⟨c, hc, rfl⟩
    rw [ih hc, set_eq_of_get? hg]
  | case13 key v _ck hck fields hl =>
    rename_i hp
    rw [rv_obj_protoWrite hck hl hp] at h
    cases h
  | case14 key v _ck hck fields hl =>
    rename_i hp
    rw [rv_obj_none hck hl hp] at h
    cases h
    rfl
  | case15 key v _ck _nk hck fields target hl hcond =>
    rename_i hs
    rw [rv_obj_arrLast_throw hck hl hcond.1 hcond.2 hs] at h
    cases h
  | case16 key v _ck _nk hck fields target hl hcond items =>
    rename_i hs
    rw [rv_obj_arrLast hck hl hcond.1 hcond.2 hs] at h
    cases h
  | case17 key v _ck _nk hck fields target hl hna hcond =>
    rename_i ih
    rw [rv_obj_step hck hl hcond.1 hcond.2] at h
    rcases inObj_eq_ret.mp h with ⟨c, hc, rfl⟩
    rw [ih hc, setField_of_lookup hl]
  | case18 key v _ck _nk hck fields target hl hna hnb =>
    rename_i hsc
    rw [rv_obj_write hck hl (by simpa using hsc)] at h
    cases h
  | case19 key v _ck _nk hck fields target hl hna hnb =>
    rename_i hsc
    have hc : target.isContainer := by simpa using hsc
    have hn : getNextStepKey key = "" := by
      by_contra hn
      exact hnb ⟨hc, hn⟩
    have ha : ¬ target.isArr := by
      intro ha
      exact hna ⟨ha, hn⟩
    rw [rv_obj_objLast hck hl hc ha hn] at h
    cases h
    rfl

theorem isContainer_of_tag {a b : JS} (h : a.tag = b.tag) :
    a.isContainer = b.isContainer := by
  cases a <;> cases b <;> simp_all [JS.tag, JS.isContainer]

theorem isStr_of_tag {a b : JS} (h : a.tag = b.tag) : a.isStr = b.isStr := by
  cases a <;> cases b <;> simp_all [JS.tag, JS.isStr]

theorem jsToString_str {s : String} : jsToString (.str s) = s := by
  simp [jsToString]

theorem lt_of_get?_some {α : Type} {xs : List α} {i : Nat} {a : α}
    (h : xs.get? i = some a) : i < xs.length := by
  by_contra hc
  rw [List.get?_eq_none.mpr (by omega)] at h
  cases h

/-- The shape of a single mutation step performed by the replacer on the node
it finally touches: either an object field is overwritten (a field that was
already present, or - via the prototype-chain guard - a field named after an
inherited `Object.prototype` member, which is then created as a new own key),
or an existing array slot is overwritten. -/
def singleWrite (c c' : JS) : Prop :=
  (∃ fields k w, c = .obj fields ∧ c' = .obj (setField fields k w) ∧
     ((lookupField fields k).isSome ∨ k ∈ objectProtoNames)) ∨
  (∃ xs i w, c = .arr xs ∧ i < xs.length ∧ c' = .arr (xs.set i w))

/-- Every returning call of the replacer either leaves the tree untouched or
rewrites exactly one location reachable in the original tree, replacing the
container found there by the same container with a single slot overwritten
(an existing object field, an object field named after an `Object.prototype`
member, or an existing array index): no intermediate containers are ever
created, and no key outside that single location is touched. -/
theorem rv_ret_path {o : JS} {key : String} {v : JS} {b : Bool} {t' : JS}
    (h : replaceValue o key v = .ret b t') :
    t' = o ∨ ∃ p c c', getPath o p = some c ∧ t' = setPath o p c' ∧
      singleWrite c c' := by
  induction o, key, v using replaceValue.induct generalizing b t' with
  | case1 o key v =>
    rename_i hck
    rw [rv_emptyKey hck] at h
    cases h
    exact Or.inl rfl
  | case2 key v =>
    rename_i hck
    rw [rv_null hck] at h
    cases h
  | case3 key v _ck hck =>
    rename_i hbp
    rw [rv_bool, if_pos hbp] at h
    cases h
    exact Or.inl rfl
  | case4 key v _ck hck =>
    rename_i hbp
    rw [rv_bool, if_neg hbp] at h
    cases h
    exact Or.inl rfl
  | case5 key v _ck hck =>
    rename_i hbp
    rw [rv_num, if_pos hbp] at h
    cases h
    exact Or.inl rfl
  | case6 key v _ck hck =>
    rename_i hbp
    rw [rv_num, if_neg hbp] at h
    cases h
    exact Or.inl rfl
  | case7 key v _ck hck =>
    rename_i s hs
    rw [rv_str, if_pos hs] at h
    cases h
    exact Or.inl rfl
  | case8 key v _ck hck =>
    rename_i s hs
    rw [rv_str, if_neg hs] at h
    cases h
    exact Or.inl rfl
  | case9 key v _ck hck =>
    rename_i xs hi
    rw [rv_arr_noIndex hi] at h
    cases h
    exact Or.inl rfl
  | case10 key v _ck hck xs i =>
    rename_i hi hg
    rw [rv_arr_outOfRange hi hg] at h
    cases h
    exact Or.inl rfl
  | case11 key v _ck _nk hck xs i hi target =>
    rename_i hg hn
    rw [rv_arr_last hi hg hn] at h
    cases h
    exact Or.inr ⟨[], .arr xs, .arr (xs.set i v), rfl, rfl,
      Or.inr ⟨xs, i, v, rfl, lt_of_get?_some hg, rfl⟩⟩
  | case12 key v _ck _nk hck xs i hi target hg =>
    rename_i hn ih
    rw [rv_arr_step hi hg hn] at h
    rcases inArr_eq_ret.mp h with ⟨c, hc, rfl⟩
    have hg2 : xs[i]? = some target := by simpa using hg
    rcases ih hc with rfl | ⟨p, cc, cc', hps, rfl, hsw⟩
    · rw [set_eq_of_get? hg]
      exact Or.inl rfl
    · refine Or.inr ⟨.idx i :: p, cc, cc', ?_, ?_, hsw⟩
      · simpa [getPath, getLoc, hg2] using hps
      · simp [setPath, getLoc, hg2, setLoc]
  | case13 key v _ck hck fields =>
    rename_i hl hp
    rw [rv_obj_protoWrite hck hl hp] at h
    cases h
    exact Or.inr ⟨[], .obj fields, .obj (setField fields (currentKeyOf key) v),
      rfl, rfl,
      Or.inl ⟨fields, currentKeyOf key, v, rfl, rfl, Or.inr hp⟩⟩
  | case14 key v _ck hck fields =>
    rename_i hl hp
    rw [rv_obj_none hck hl hp] at h
    cases h
    exact Or.inl rfl
  | case15 key v _ck _nk hck fields target hl =>
    rename_i hcond hs
    rw [rv_obj_arrLast_throw hck hl hcond.1 hcond.2 hs] at h
    cases h
  | case16 key v _ck _nk hck fields target hl hcond =>
    rename_i items hs
    rw [rv_obj_arrLast hck hl hcond.1 hcond.2 hs] at h
    cases h
    exact Or.inr ⟨[], .obj fields,
      .obj (setField fields (currentKeyOf key) (.arr (items.map JS.str))),
      rfl, rfl,
      Or.inl ⟨fields, currentKeyOf key, .arr (items.map JS.str), rfl, rfl,
        Or.inl (by rw [hl]; rfl)⟩⟩
  | case17 key v _ck _nk hck fields target hl hna =>
    rename_i hcond ih
    rw [rv_obj_step hck hl hcond.1 hcond.2] at h
    rcases inObj_eq_ret.mp h with ⟨c, hc, rfl⟩
    rcases ih hc with rfl | ⟨p, cc, cc', hps, rfl, hsw⟩
    · rw [setField_of_lookup hl]
      exact Or.inl rfl
    · refine Or.inr ⟨.fld (currentKeyOf key) :: p, cc, cc', ?_, ?_, hsw⟩
      · simpa [getPath, getLoc, hl] using hps
      · simp [setPath, getLoc, hl, setLoc]
  | case18 key v _ck _nk hck fields target hl hna =>
    rename_i hnb hsc
    rw [rv_obj_write hck hl (by simpa using hsc)] at h
    cases h
    exact Or.inr ⟨[], .obj fields,
      .obj (setField fields (currentKeyOf key)
        (if target.isStr then .str (jsToString v) else v)),
      rfl, rfl,
      Or.inl ⟨fields, currentKeyOf key,
        (if target.isStr then .str (jsToString v) else v), rfl, rfl,
        Or.inl (by rw [hl]; rfl)⟩⟩
  | case19 key v _ck _nk hck fields target hl hna =>
    rename_i hnb hsc
    have hc : target.isContainer := by simpa using hsc
    have hn : getNextStepKey key = "" := by
      by_contra hn
      exact hnb ⟨hc, hn⟩
    have ha : ¬ target.isArr := by
      intro ha
      exact hna ⟨ha, hn⟩
    rw [rv_obj_objLast hck hl hc ha hn] at h
    cases h
    exact Or.inl rfl

/-- Idempotence of a successful replacement with a non-container value (the
coercer only produces scalars): running the same replacement again on the
result tree succeeds and changes nothing. -/
theorem rv_idem {o : JS} {key : String} {v : JS} {t' : JS}
    (hv : ¬ v.isContainer) (h : replaceValue o key v = .ret true t') :
    replaceValue t' key v = .ret true t' := by
  induction o, key, v using replaceValue.induct generalizing t' with
  | case1 o key v _ck =>
    rename_i hck
    rw [rv_emptyKey hck] at h
    cases h
  | case2 key v _ck =>
    rename_i hck
    rw [rv_null hck] at h
    cases h
  | case3 key v _ck hck b' =>
    rename_i hbp
    rw [rv_bool, if_pos hbp] at h
    cases h
    rw [rv_bool, if_pos hbp]
  | case4 key v _ck hck b' =>
    rename_i hbp
    rw [rv_bool, if_neg hbp] at h
    cases h
  | case5 key v _ck hck n =>
    rename_i hbp
    rw [rv_num, if_pos hbp] at h
    cases h
    rw [rv_num, if_pos hbp]
  | case6 key v _ck hck n =>
    rename_i hbp
    rw [rv_num, if_neg hbp] at h
    cases h
  | case7 key v _ck hck s =>
    rename_i hs
    rw [rv_str, if_pos hs] at h
    cases h
    rw [rv_str, if_pos hs]
  | case8 key v _ck hck s =>
    rename_i hs
    rw [rv_str, if_neg hs] at h
    cases h
  | case9 key v _ck hck xs =>
    rename_i hi
    rw [rv_arr_noIndex hi] at h
    cases h
  | case10 key v _ck hck xs i hi =>
    rename_i hg
    rw [rv_arr_outOfRange hi hg] at h
    cases h
  | case11 key v _ck _nk hck xs i hi target hg =>
    rename_i hn
    rw [rv_arr_last hi hg hn] at h
    cases h
    rw [rv_arr_last hi (get?_set_self hg) hn, List.set_set]
  | case12 key v _ck _nk hck xs i hi target hg hn =>
    rename_i ih
    rw [rv_arr_step hi hg hn] at h
    rcases inArr_eq_ret.mp h with ⟨c, hc, rfl⟩
    rw [rv_arr_step hi (get?_set_self hg) hn, ih hv hc]
    simp [RRes.inArr, List.set_set]
  | case13 key v _ck hck fields hl =>
    rename_i hp
    rw [rv_obj_protoWrite hck hl hp] at h
    cases h
    rw [rv_obj_write hck lookup_setField_self hv, setField_setField]
    by_cases hvs : v.isStr
    · cases v with
      | str s => rw [if_pos (by simp [JS.isStr]), jsToString_str]
      | null => simp [JS.isStr] at hvs
      | bool b' => simp [JS.isStr] at hvs
      | num n => simp [JS.isStr] at hvs
      | arr xs => simp [JS.isStr] at hvs
      | obj fs => simp [JS.isStr] at hvs
    · rw [if_neg hvs]
  | case14 key v _ck hck fields hl =>
    rename_i hp
    rw [rv_obj_none hck hl hp] at h
    cases h
  | case15 key v _ck _nk hck fields target hl hcond =>
    rename_i hs
    rw [rv_obj_arrLast_throw hck hl hcond.1 hcond.2 hs] at h
    cases h
  | case16 key v _ck _nk hck fields target hl hcond items =>
    rename_i hs
    rw [rv_obj_arrLast hck hl hcond.1 hcond.2 hs] at h
    cases h
    rw [rv_obj_arrLast hck lookup_setField_self (by simp [JS.isArr]) hcond.2 hs,
      setField_setField]
  | case17 key v _ck _nk hck fields target hl hna hcond =>
    rename_i ih
    rw [rv_obj_step hck hl hcond.1 hcond.2] at h
    rcases inObj_eq_ret.mp h with ⟨c, hc, rfl⟩
    have hcc : c.isContainer := by
      rw [isContainer_of_tag (rv_ret_tag hc)]
      exact hcond.1
    rw [rv_obj_step hck lookup_setField_self hcc hcond.2, ih hv hc]
    simp [RRes.inObj, setField_setField]
  | case18 key v _ck _nk hck fields target hl hna hnb =>
    rename_i hsc
    rw [rv_obj_write hck hl (by simpa using hsc)] at h
    cases h
    by_cases hts : target.isStr
    · rw [if_pos hts]
      rw [rv_obj_write hck lookup_setField_self (by simp [JS.isContainer])]
      rw [if_pos (by simp [JS.isStr])]
      rw [setField_setField]
    · rw [if_neg hts]
      rw [rv_obj_write hck lookup_setField_self hv]
      rw [setField_setField]
      by_cases hvs : v.isStr
      · cases v with
        | str s => rw [if_pos (by simp [JS.isStr]), jsToString_str]
        | null => simp [JS.isStr] at hvs
        | bool b' => simp [JS.isStr] at hvs
        | num n => simp [JS.isStr] at hvs
        | arr xs => simp [JS.isStr] at hvs
        | obj fs => simp [JS.isStr] at hvs
      · rw [if_neg hvs]
  | case19 key v _ck _nk hck fields target hl hna hnb =>
    rename_i hsc
    have hc : target.isContainer := by simpa using hsc
    have hn : getNextStepKey key = "" := by
      by_contra hn
      exact hnb ⟨hc, hn⟩
    have ha : ¬ target.isArr := by
      intro ha
      exact hna ⟨ha, hn⟩
    rw [rv_obj_objLast hck hl hc ha hn] at h
    cases h

/-! ## Nonemptiness of split segments, coercer facts, batch facts -/

theorem splitRunsAux_ne_nil_aux {pair delim : Char → Bool} :
    ∀ (n : Nat) (cs acc l : List Char), cs.length ≤ n →
      l ∈ splitRunsAux pair delim cs acc → l ≠ [] := by
  intro n
  induction n with
  | zero =>
    intro cs acc l hlen h
    have hcs : cs = [] := by
      cases cs
      · rfl
      · simp at hlen
    subst hcs
    rw [splitRunsAux] at h
    split at h
    · simp at h
    · rename_i hne
      simp only [List.mem_singleton] at h
      subst h
      simpa using hne
  | succ n ih =>
    intro cs acc l hlen h
    rw [splitRunsAux.eq_def] at h
    split at h
    · split at h
      · simp at h
      · rename_i hne
        simp only [List.mem_singleton] at h
        subst h
        simpa using hne
    · split at h
      · exact ih _ _ _ (by simp_all <;> omega) h
      · exact ih _ _ _ (by simp_all <;> omega) h
    · split at h
      · split at h
        · exact ih _ _ _ (by simp_all <;> omega) h
        · rename_i hne
          rcases List.mem_cons.mp h with rfl | hmem
          · simpa using hne
          · exact ih _ _ _ (by simp_all <;> omega) hmem
      · exact ih _ _ _ (by simp_all <;> omega) h

theorem splitRunsAux_ne_nil {pair delim : Char → Bool} {cs acc l : List Char}
    (h : l ∈ splitRunsAux pair delim cs acc) : l ≠ [] :=
  splitRunsAux_ne_nil_aux cs.length cs acc l (Nat.le_refl _) h

theorem asString_ne_empty {l : List Char} (h : l ≠ []) : l.asString ≠ "" := by
  intro hc
  apply h
  have := congrArg String.data hc
  simpa [List.asString] using this

/-- The raw splitter never produces an empty segment (zero-width segments are
dropped). -/
theorem mem_splitKey_ne_empty {key s : String} (h : s ∈ splitKey key) :
    s ≠ "" := by
  simp only [splitKey, splitRuns, List.mem_map] at h
  rcases h with ⟨l, hl, rfl⟩
  exact asString_ne_empty (splitRunsAux_ne_nil hl)

theorem unescapeChars_ne_nil {l : List Char} (h : l ≠ []) :
    unescapeChars l ≠ [] := by
  rw [unescapeChars.eq_def]
  repeat (any_goals split)
  all_goals simp_all

theorem unescapeSegment_ne_empty {s : String} (h : s ≠ "") :
    unescapeSegment s ≠ "" := by
  intro hc
  have hd : s.data ≠ [] := by
    intro hd
    apply h
    cases s
    simp_all
  apply unescapeChars_ne_nil hd
  have := congrArg String.data hc
  simpa [unescapeSegment] using this

/-- The effective tokenizer never produces an empty segment. -/
theorem mem_tokenizeKey_ne_empty {key s : String} (h : s ∈ tokenizeKey key) :
    s ≠ "" := by
  simp only [tokenizeKey, List.mem_map] at h
  rcases h with ⟨u, hu, rfl⟩
  exact unescapeSegment_ne_empty (mem_splitKey_ne_empty hu)

/-- The delimited-list splitter never produces an empty pre-trim segment. -/
theorem mem_delimSegments_ne_empty {s u : String} (h : u ∈ delimSegments s) :
    u ≠ "" := by
  simp only [delimSegments, splitRuns, List.mem_map] at h
  rcases h with ⟨l, hl, rfl⟩
  exact asString_ne_empty (splitRunsAux_ne_nil hl)

/-- The coercer never produces an array or an object. -/
theorem parseValue_isContainer {s : String} :
    (parseValue s).isContainer = false := by
  unfold parseValue
  split_ifs <;> rfl

theorem parseValue_str_eq {s s' : String} (h : parseValue s = .str s') :
    s' = s := by
  unfold parseValue at h
  split_ifs at h <;> simp_all

theorem parseValue_null_iff {s : String} : parseValue s = .null ↔ s = "" := by
  unfold parseValue
  split_ifs <;> simp_all

theorem parseValue_bool {s : String} {b : Bool} (h : parseValue s = .bool b) :
    (s = "true" ∧ b = true) ∨ (s = "false" ∧ b = false) := by
  unfold parseValue at h
  split_ifs at h <;> simp_all

theorem parseValue_num {s : String} {n : JSNum} (h : parseValue s = .num n) :
    n = jsNumberOfString s ∧ n.isNaN = false ∧
      (numToString (parseIntJS s) = s ∨ numToString (parseFloatJS s) = s) := by
  unfold parseValue at h
  split_ifs at h <;> simp_all

/-- If a batch application reports no applied keys, the tree is unchanged. -/
theorem transformObject_ok_nil {rs : List (String × String)} :
    ∀ {o t' : JS}, transformObject o rs = .ok [] t' → t' = o := by
  induction rs with
  | nil =>
    intro o t' h
    rw [transformObject] at h
    cases h
    rfl
  | cons p rest ih =>
    obtain ⟨k, s⟩ := p
    intro o t' h
    rw [transformObject] at h
    cases hr : replaceObjectValue o k s with
    | thrown =>
      rw [hr] at h
      cases h
    | ret b t =>
      cases b
      · rw [hr] at h
        have ht : t = o := rv_false_eq hr
        subst ht
        exact ih h
      · rw [hr] at h
        cases htr : transformObject t rest with
        | ok keys t2 => simp [htr] at h
        | thrown t2 => simp [htr] at h

/-! ## The claims -/

/-- C1: the specification promises that the core signals every unmatched
key, malformed index or type mismatch by a `false` return and never throws.
The code does throw: at the tree `{a: [1]}` with replacement `a=42` the
whole-array branch calls `stringToArray` on the coerced number `42`, which
has no `.match` method, so `transformObject` propagates a `TypeError`
instead of returning a key list.  A second crash family: descending through
a `null` array element (key `a.0.x` on `{a: [null]}`) evaluates
`null["x"]` and also throws. -/
theorem claim_C1 :
    transformObject (.obj [("a", .arr [.num (.dec 1 0)])]) [("a", "42")] =
        .thrown (.obj [("a", .arr [.num (.dec 1 0)])]) ∧
      replaceObjectValue (.obj [("a", .arr [.null])]) "a.0.x" "1" = .thrown := by
  constructor
  · have h2 : replaceObjectValue (JS.obj [("a", JS.arr [JS.num (JSNum.dec 1 0)])])
        "a" "42" = .thrown := by
      unfold replaceObjectValue
      rw [show parseValue "42" = JS.num (JSNum.dec 42 0) from rfl]
      exact rv_obj_arrLast_throw (by decide) (by rfl) (by rfl) (by rfl) (by rfl)
    simp [transformObject, h2]
  · unfold replaceObjectValue
    rw [rv_obj_step (by decide) (by rfl) (by rfl) (by decide)]
    rw [rv_arr_step (by rfl) (by rfl) (by decide)]
    rw [rv_null (by decide)]
    rfl

/-- C2, counterexample: the claim says the whole-array branch parses the
ORIGINAL raw string, so `{a: [0]}` with raw value `"true"` should become
`{a: ["true"]}` and succeed; the code instead forwards the coerced boolean
`true` into `stringToArray` and throws. -/
theorem claim_C2_counterexample :
    replaceObjectValue (.obj [("a", .arr [.num (.dec 0 0)])]) "a" "true" = .thrown ∧
      replaceObjectValue (.obj [("a", .arr [.num (.dec 0 0)])]) "a" "true" ≠
        .ret true (.obj [("a", .arr [.str "true"])]) ∧
      stringToArray "true" = ["true"] := by
  have h : replaceObjectValue (JS.obj [("a", JS.arr [JS.num (JSNum.dec 0 0)])])
      "a" "true" = .thrown := by
    unfold replaceObjectValue
    rw [show parseValue "true" = JS.bool true from rfl]
    exact rv_obj_arrLast_throw (by decide) (by rfl) (by rfl) (by rfl) (by rfl)
  refine ⟨h, ?_, rfl⟩
  rw [h]
  intro hc
  cases hc

/-- C2, amended: in the whole-array case the code applies the delimited-list
parser to the COERCED value, not the raw string: when coercion leaves the
string unchanged the result is the delimited-list parse of that string; a
falsy coerced value (`null` from `""`, `false`, `0`) yields the empty array;
any other coerced boolean or number throws a `TypeError`. -/
theorem claim_C2 (fields : List (String × JS)) (key s : String) (xs : List JS)
    (hck : currentKeyOf key ≠ "")
    (hl : lookupField fields (currentKeyOf key) = some (.arr xs))
    (hn : getNextStepKey key = "") :
    replaceObjectValue (.obj fields) key s =
      (match stringToArrayJS (parseValue s) with
       | some items =>
         .ret true (.obj (setField fields (currentKeyOf key)
           (.arr (items.map JS.str))))
       | none => .thrown) ∧
      (parseValue s = .str s →
        stringToArrayJS (parseValue s) = some (stringToArray s)) := by
  constructor
  · unfold replaceObjectValue
    cases hs : stringToArrayJS (parseValue s) with
    | none => exact rv_obj_arrLast_throw hck hl rfl hn hs
    | some items => exact rv_obj_arrLast hck hl rfl hn hs
  · intro hstr
    rw [hstr]
    by_cases hse : s = ""
    · subst hse
      rfl
    · simp [stringToArrayJS, jsFalsy, hse]

theorem claim_C2_witness :
    replaceObjectValue (.obj [("tags", .arr [.str "x"])]) "tags" "a,b,c" =
      .ret true (.obj [("tags", .arr [.str "a", .str "b", .str "c"])]) := by
  have h := (claim_C2 [("tags", JS.arr [JS.str "x"])] "tags" "a,b,c"
    [JS.str "x"] (by decide) (by rfl) (by rfl)).1
  rw [h]
  rfl

/-- C3, counterexample: the claim says a key appears in the applied-keys
sequence iff the tree was actually mutated.  Descending into the primitive
string `"hi"` with key `a.0.0` reaches the overwrite branch, whose
assignment to a character position of a boxed primitive is silently ignored
in sloppy mode; the call still returns `true`, so the key is recorded while
the tree is unchanged. -/
theorem claim_C3_counterexample :
    transformObject (.obj [("a", .arr [.str "hi"])]) [("a.0.0", "9")] =
      .ok ["a.0.0"] (.obj [("a", .arr [.str "hi"])]) := by
  have hrv : replaceObjectValue (JS.obj [("a", JS.arr [JS.str "hi"])])
      "a.0.0" "9" = .ret true (JS.obj [("a", JS.arr [JS.str "hi"])]) := by
    unfold replaceObjectValue
    rw [show parseValue "9" = JS.num (JSNum.dec 9 0) from rfl]
    rw [rv_obj_step (by decide) (by rfl) (by rfl) (by decide)]
    rw [rv_arr_step (by rfl) (by rfl) (by decide)]
    rw [rv_str, if_pos (by decide)]
    rfl
  simp [transformObject, hrv]

/-- C3, amended: mutation is all-or-nothing per key in the failure
direction — a `false` return always leaves the tree exactly as it was, and
a batch that applied no keys changed nothing; but a `true` return (and hence
an entry in the applied-keys sequence) does not guarantee a change, because
writes into boxed primitive strings are silently dropped and overwriting a
slot with an equal value changes nothing. -/
theorem claim_C3 :
    (∀ (o : JS) (key : String) (v : JS) (t' : JS),
        replaceValue o key v = .ret false t' → t' = o) ∧
      ∀ (o : JS) (rs : List (String × String)) (t' : JS),
        transformObject o rs = .ok [] t' → t' = o :=
  ⟨fun _ _ _ _ h => rv_false_eq h, fun _ _ _ h => transformObject_ok_nil h⟩

theorem claim_C3_witness :
    replaceValue (.obj [("a", .num (.dec 1 0))]) "b" (.num (.dec 5 0)) =
        .ret false (.obj [("a", .num (.dec 1 0))]) ∧
      JS.obj [("a", .num (.dec 1 0))] = .obj [("a", .num (.dec 1 0))] := by
  have h : replaceValue (JS.obj [("a", JS.num (JSNum.dec 1 0))]) "b"
      (JS.num (JSNum.dec 5 0)) =
      .ret false (JS.obj [("a", JS.num (JSNum.dec 1 0))]) :=
    rv_obj_none (by decide) (by rfl) (by decide)
  exact ⟨h, claim_C3.1 _ _ _ _ h⟩

/-- C4, counterexample: the claim lists `"Infinity"` among the strings that
are NOT coerced to numbers; but `parseFloat("Infinity").toString()` is
exactly `"Infinity"`, so the round-trip check passes and the coercer returns
the number `Infinity`, not the string. -/
theorem claim_C4_counterexample :
    parseValue "Infinity" = .num (.inf false) ∧
      parseValue "Infinity" ≠ .str "Infinity" := by
  refine ⟨rfl, ?_⟩
  intro h
  rw [show parseValue "Infinity" = JS.num (JSNum.inf false) from rfl] at h
  cases h

/-- C4, amended: the coercer's rules in order — empty string to `null`, the
literals `"true"`/`"false"` to booleans, a number exactly when `Number` is
not `NaN` and `parseInt` or `parseFloat` round-trips through `toString` to
the original text, anything else unchanged.  `"42"`, `"3.14"` become
numbers; `"007"`, `"1e2"`, `"NaN"` stay strings; but `"Infinity"` and
`"-Infinity"` DO round-trip through `parseFloat` and become numbers. -/
theorem claim_C4 (s s' : String) (b : Bool) (n : JSNum) :
    (parseValue s = .null ↔ s = "") ∧
    (parseValue s = .bool b → (s = "true" ∧ b = true) ∨ (s = "false" ∧ b = false)) ∧
    (parseValue s = .num n → n = jsNumberOfString s ∧ n.isNaN = false ∧
       (numToString (parseIntJS s) = s ∨ numToString (parseFloatJS s) = s)) ∧
    (parseValue s = .str s' → s' = s) ∧
    parseValue "" = .null ∧ parseValue "true" = .bool true ∧
    parseValue "false" = .bool false ∧
    parseValue "42" = .num (.dec 42 0) ∧
    parseValue "3.14" = .num (.dec 314 (-2)) ∧
    parseValue "007" = .str "007" ∧ parseValue "1e2" = .str "1e2" ∧
    parseValue "NaN" = .str "NaN" ∧
    parseValue "Infinity" = .num (.inf false) ∧
    parseValue "-Infinity" = .num (.inf true) ∧
    parseValue "hello" = .str "hello" :=
  ⟨parseValue_null_iff, parseValue_bool, parseValue_num, parseValue_str_eq,
   rfl, rfl, rfl, rfl, rfl, rfl, rfl, rfl, rfl, rfl, rfl⟩

theorem claim_C4_witness :
    JSNum.dec 314 (-2) = jsNumberOfString "3.14" ∧
      (JSNum.dec 314 (-2)).isNaN = false ∧
      (numToString (parseIntJS "3.14") = "3.14" ∨
        numToString (parseFloatJS "3.14") = "3.14") :=
  (claim_C4 "3.14" "x" true (JSNum.dec 314 (-2))).2.2.1 rfl

/-- C5, counterexample: the claim says the replacer never adds a new object
key; but for a key named after an inherited `Object.prototype` member the
guard `typeof obj[k] === 'undefined'` passes via the prototype chain, the
overwrite branch runs, and a NEW own key is created:
`transformObject({a:1}, {toString:"5"})` returns `["toString"]` and the tree
gains the own key `"toString"` that it did not have before the call. -/
theorem claim_C5_counterexample :
    transformObject (.obj [("a", .num (.dec 1 0))]) [("toString", "5")] =
        .ok ["toString"]
          (.obj [("a", .num (.dec 1 0)), ("toString", .num (.dec 5 0))]) ∧
      lookupField [("a", JS.num (.dec 1 0))] "toString" = none := by
  have hrv : replaceObjectValue (.obj [("a", .num (.dec 1 0))]) "toString" "5" =
      .ret true (.obj [("a", .num (.dec 1 0)), ("toString", .num (.dec 5 0))]) := by
    unfold replaceObjectValue
    rw [show parseValue "5" = JS.num (JSNum.dec 5 0) from rfl]
    rw [rv_obj_protoWrite (by decide) (by rfl) (by decide)]
    rfl
  exact ⟨by simp [transformObject, hrv], by rfl⟩

/-- C5, amended: whenever the replacer returns, the tree is either untouched
or equal to the original with exactly one addressed location rewritten — an
already-existing object field, an already-existing array index, or (contrary
to the claim) a NEW own object key, created exactly when the key names an
inherited `Object.prototype` member, since the prototype chain defeats the
undefined-guard; no intermediate containers are ever created. -/
theorem claim_C5 (o : JS) (key : String) (v : JS) (b : Bool) (t' : JS)
    (h : replaceValue o key v = .ret b t') :
    t' = o ∨ ∃ p c c', getPath o p = some c ∧ t' = setPath o p c' ∧
      singleWrite c c' :=
  rv_ret_path h

theorem claim_C5_witness :
    JS.obj [("a", .num (.dec 1 0)), ("toString", .num (.dec 5 0))] =
        .obj [("a", .num (.dec 1 0))] ∨
      ∃ p c c', getPath (JS.obj [("a", .num (.dec 1 0))]) p = some c ∧
        JS.obj [("a", .num (.dec 1 0)), ("toString", .num (.dec 5 0))] =
          setPath (JS.obj [("a", .num (.dec 1 0))]) p c' ∧
        singleWrite c c' := by
  apply claim_C5 _ "toString" (JS.num (JSNum.dec 5 0)) true
  rw [rv_obj_protoWrite (by decide) (by rfl) (by decide)]
  rfl

/-- C6: the key tokenizer splits on unescaped dots, turns a backslash-escaped
dot into a literal dot inside its segment, maps the empty key to no segments,
drops zero-width segments from consecutive or edge dots, and never yields an
empty segment. -/
theorem claim_C6 :
    tokenizeKey "a.b.c" = ["a", "b", "c"] ∧
    tokenizeKey "a\\.b.c" = ["a.b", "c"] ∧
    tokenizeKey "" = [] ∧
    tokenizeKey "a..b" = ["a", "b"] ∧
    ∀ (key s : String), s ∈ tokenizeKey key → s ≠ "" :=
  ⟨rfl, rfl, rfl, rfl, fun _ _ h => mem_tokenizeKey_ne_empty h⟩

theorem claim_C6_witness : "a" ≠ "" :=
  claim_C6.2.2.2.2 "a.b.c" "a"
    (by rw [show tokenizeKey "a.b.c" = ["a", "b", "c"] from rfl]; decide)

/-- C7: when the addressed slot of an object holds a string, the replacer
stores the string form of the incoming value; in particular
`replace({a:"5"}, "a", 10)` succeeds and leaves `a = "10"`, a string. -/
theorem claim_C7 :
    (∀ (fields : List (String × JS)) (key : String) (v : JS) (s : String),
        currentKeyOf key ≠ "" →
        lookupField fields (currentKeyOf key) = some (.str s) →
        replaceValue (.obj fields) key v =
          .ret true (.obj (setField fields (currentKeyOf key)
            (.str (jsToString v))))) ∧
      replaceValue (.obj [("a", .str "5")]) "a" (.num (.dec 1 1)) =
        .ret true (.obj [("a", .str "10")]) := by
  have h1 : ∀ (fields : List (String × JS)) (key : String) (v : JS) (s : String),
      currentKeyOf key ≠ "" →
      lookupField fields (currentKeyOf key) = some (.str s) →
      replaceValue (.obj fields) key v =
        .ret true (.obj (setField fields (currentKeyOf key)
          (.str (jsToString v)))) := by
    intro fields key v s hck hl
    rw [rv_obj_write hck hl (by simp [JS.isContainer])]
    simp [JS.isStr]
  refine ⟨h1, ?_⟩
  rw [h1 [("a", JS.str "5")] "a" (JS.num (JSNum.dec 1 1)) "5" (by decide) (by rfl)]
  simp [jsToString]
  rfl

theorem claim_C7_witness :
    replaceValue (.obj [("a", .str "5")]) "a" (.bool true) =
      .ret true (.obj (setField [("a", JS.str "5")] "a"
        (.str (jsToString (JS.bool true))))) :=
  claim_C7.1 [("a", JS.str "5")] "a" (JS.bool true) "5" (by decide) (by rfl)

/-- C8, counterexample: the claim says the delimited-list parser never
returns an empty-string item; but empties are discarded before trimming, so
a whitespace-only input yields the single item `""`. -/
theorem claim_C8_counterexample :
    stringToArray " " = [""] ∧ "" ∈ stringToArray " " := by
  refine ⟨rfl, ?_⟩
  rw [show stringToArray " " = [""] from rfl]
  exact List.mem_singleton.mpr rfl

/-- C8, amended: the parser splits on unescaped `,`, `;` and newline
(escaped delimiters stay inside their item), drops zero-width split results
BEFORE trimming, and trims each surviving item — so every item is the trim
of a nonempty delimiter-run, and an empty-string item occurs exactly when
such a run is all whitespace. -/
theorem claim_C8 :
    (∀ (s item : String), item ∈ stringToArray s →
        ∃ u, u ∈ delimSegments s ∧ u ≠ "" ∧ item = jsTrim u) ∧
    stringToArray "a,b;c\nd" = ["a", "b", "c", "d"] ∧
    stringToArray "a\\,b, c " = ["a\\,b", "c"] ∧
    stringToArray "" = [] := by
  refine ⟨?_, rfl, rfl, rfl⟩
  intro s item h
  unfold stringToArray at h
  split_ifs at h with hse
  · simp at h
  · rcases List.mem_map.mp h with ⟨u, hu, rfl⟩
    exact ⟨u, hu, mem_delimSegments_ne_empty hu, rfl⟩

theorem claim_C8_witness :
    ∃ u, u ∈ delimSegments "a,b" ∧ u ≠ "" ∧ "a" = jsTrim u :=
  claim_C8.1 "a,b" "a"
    (by rw [show stringToArray "a,b" = ["a", "b"] from rfl]; decide)

/-- C9, counterexample: the claim says a whitespace-only key never matches
anything; but `" "` tokenizes to the single segment `" "`, which matches a
property literally named with a space, and the replacement succeeds. -/
theorem claim_C9_counterexample :
    replaceObjectValue (.obj [(" ", .num (.dec 1 0))]) " " "5" =
      .ret true (.obj [(" ", .num (.dec 5 0))]) := by
  unfold replaceObjectValue
  rw [show parseValue "5" = JS.num (JSNum.dec 5 0) from rfl]
  rw [rv_obj_write (by decide) (by rfl) (by decide)]
  rfl

/-- C9, amended: a key whose tokenization is empty — the empty key, or a key
consisting only of dots — always fails and leaves the tree unchanged; a
whitespace-only key instead forms an ordinary one-segment path. -/
theorem claim_C9 :
    (∀ (o v : JS) (key : String), splitKey key = [] →
        replaceValue o key v = .ret false o) ∧
    splitKey "" = [] ∧ splitKey "..." = [] ∧ splitKey " " = [" "] := by
  refine ⟨?_, rfl, rfl, rfl⟩
  intro o v key hk
  apply rv_emptyKey
  simp [currentKeyOf, hk]

theorem claim_C9_witness :
    replaceValue (.obj [("a", .num (.dec 1 0))]) "" (.num (.dec 5 0)) =
      .ret false (.obj [("a", .num (.dec 1 0))]) :=
  claim_C9.1 _ _ "" rfl

/-- C10: replacer idempotence through the batch entry point — if applying a
replacement (key, raw string) succeeds and produces a tree, applying the
same replacement to that tree succeeds again and returns the same tree. -/
theorem claim_C10 (o : JS) (key value : String) (t' : JS)
    (h : replaceObjectValue o key value = .ret true t') :
    replaceObjectValue t' key value = .ret true t' := by
  unfold replaceObjectValue at h ⊢
  exact rv_idem (by simp [parseValue_isContainer]) h

theorem claim_C10_witness :
    replaceObjectValue (.obj [("a", .num (.dec 2 0))]) "a" "2" =
      .ret true (.obj [("a", .num (.dec 2 0))]) := by
  apply claim_C10 (JS.obj [("a", JS.num (JSNum.dec 1 0))])
  unfold replaceObjectValue
  rw [show parseValue "2" = JS.num (JSNum.dec 2 0) from rfl]
  rw [rv_obj_write (by decide) (by rfl) (by decide)]
  rfl

end JsonFileTransform
